import Mathlib

/-!
A shallow embedding of the sjournal package (a log/slog handler that encodes
log records into the systemd journal's native datagram protocol), together
with theorems checking the natural-language specification against it.

Sources embedded:
  * handler.go        — Handler, HandlerOptions, NewHandler, Enabled, clone,
                        WithAttrs, WithGroup, ExtendPrefix, the priority
                        prefix table, Handle, handleState and its appendX
                        helper methods;
  * the level constants (LevelDebug .. LevelAlert);
  * large_yes.go / large_no.go — sendViaFileIfTooLarge on both platform
    families (I/O outcomes are passed in as explicit parameters).

Go byte slices and the repository's `buffer` type (a plain growable []byte,
whose file is not among the provided sources) are modelled as `List UInt8`;
Go strings are Lean `String`s, lowered to bytes with `strBytes` at each
`WriteString`.  `needsQuoting` and `strconv.AppendQuote` are likewise not
among the provided sources and are modelled from the spec, as marked on
their definitions.  Machine integers: slog levels are `Int` (Go int64-based
`slog.Level`), byte counts are `Nat`, and the one place 64-bit overflow
could matter — `binary.LittleEndian.PutUint64` of the message length — is
modelled by truncating each encoded byte mod 256, exactly as the Go
conversion does.
-/

/-- UTF-8 encoding of one character (the bytes Go appends for a rune). -/
def charBytes (c : Char) : List UInt8 :=
  let n := c.toNat
  if n < 0x80 then [UInt8.ofNat n]
  else if n < 0x800 then
    [UInt8.ofNat (0xC0 ||| (n >>> 6)), UInt8.ofNat (0x80 ||| (n &&& 0x3F))]
  else if n < 0x10000 then
    [UInt8.ofNat (0xE0 ||| (n >>> 12)), UInt8.ofNat (0x80 ||| ((n >>> 6) &&& 0x3F)),
     UInt8.ofNat (0x80 ||| (n &&& 0x3F))]
  else
    [UInt8.ofNat (0xF0 ||| (n >>> 18)), UInt8.ofNat (0x80 ||| ((n >>> 12) &&& 0x3F)),
     UInt8.ofNat (0x80 ||| ((n >>> 6) &&& 0x3F)), UInt8.ofNat (0x80 ||| (n &&& 0x3F))]

/-- The bytes of a Go string (UTF-8), as written by `buffer.WriteString`. -/
def strBytes (s : String) : List UInt8 :=
  s.data.foldr (fun c acc => charBytes c ++ acc) []

/-- slog.LevelDebug. -/
def LevelDebug : Int := -4
/-- slog.LevelInfo. -/
def LevelInfo : Int := 0
/-- LevelNotice = slog.LevelInfo + 2. -/
def LevelNotice : Int := 2
/-- slog.LevelWarn. -/
def LevelWarn : Int := 4
/-- slog.LevelError. -/
def LevelError : Int := 8
/-- LevelCrit = slog.LevelError + 4. -/
def LevelCrit : Int := 12
/-- LevelAlert = slog.LevelError + 8. -/
def LevelAlert : Int := 16

/-- handler.go: the per-priority entry prefix constants.  Each is
`PRIORITY=<n>\n` then the literal key `MESSAGE\n` then the 8 zero bytes
reserved for the little-endian message length. -/
def prefixEmerg : String := "PRIORITY=0\nMESSAGE\n\x00\x00\x00\x00\x00\x00\x00\x00"
/-- handler.go: prefix for priority 1. -/
def prefixAlert : String := "PRIORITY=1\nMESSAGE\n\x00\x00\x00\x00\x00\x00\x00\x00"
/-- handler.go: prefix for priority 2. -/
def prefixCrit : String := "PRIORITY=2\nMESSAGE\n\x00\x00\x00\x00\x00\x00\x00\x00"
/-- handler.go: prefix for priority 3. -/
def prefixErr : String := "PRIORITY=3\nMESSAGE\n\x00\x00\x00\x00\x00\x00\x00\x00"
/-- handler.go: prefix for priority 4. -/
def prefixWarning : String := "PRIORITY=4\nMESSAGE\n\x00\x00\x00\x00\x00\x00\x00\x00"
/-- handler.go: prefix for priority 5. -/
def prefixNotice : String := "PRIORITY=5\nMESSAGE\n\x00\x00\x00\x00\x00\x00\x00\x00"
/-- handler.go: prefix for priority 6. -/
def prefixInfo : String := "PRIORITY=6\nMESSAGE\n\x00\x00\x00\x00\x00\x00\x00\x00"
/-- handler.go: prefix for priority 7. -/
def prefixDebug : String := "PRIORITY=7\nMESSAGE\n\x00\x00\x00\x00\x00\x00\x00\x00"

/-- handler.go `priorityPrefixes`: the 17-entry table indexed by
`level - LevelDebug` for levels LevelDebug .. LevelCrit. -/
def priorityPrefixes : List String :=
  [prefixDebug,                                       -- LevelDebug
   prefixInfo, prefixInfo, prefixInfo,
   prefixInfo,                                        -- LevelInfo
   prefixNotice,                                      -- LevelInfo + 1
   prefixNotice,                                      -- LevelNotice
   prefixNotice,                                      -- LevelWarn - 1
   prefixWarning,                                     -- LevelWarn
   prefixErr, prefixErr, prefixErr,
   prefixErr,                                         -- LevelError
   prefixCrit,                                        -- LevelError + 1
   prefixCrit, prefixCrit,
   prefixCrit]                                        -- LevelCrit

/-- The prefix Handle selects for a record level (handler.go lines 171-178):
below the table it is prefixDebug, beyond the table prefixAlert. -/
def priorityPrefixOf (l : Int) : String :=
  let i := l - LevelDebug
  if i < 0 then prefixDebug
  else if i < (priorityPrefixes.length : Int) then
    priorityPrefixes.getD i.toNat prefixAlert
  else prefixAlert

/-- The numeric priority the selected prefix declares: the digit at byte
offset 9 of `PRIORITY=<n>\n...`. -/
def priorityNum (l : Int) : Nat :=
  ((strBytes (priorityPrefixOf l)).getD 9 0).toNat - 48

/-- A resolved slog attribute value.  The zero value (`KindAny` holding nil,
whose rendering is `<nil>`), strings, integers and groups are represented;
`KindTime` / source-location values are rewritten to strings by Handle's
special cases before any logic the claims concern, so they are subsumed by
`str`.  `Resolve()` is the identity on every represented kind. -/
inductive AttrValue where
  | nilv
  | str (s : String)
  | intv (n : Int)
  | group (as : List (String × AttrValue))

/-- slog.Attr: a key and a value. -/
abbrev Attr := String × AttrValue

/-- Whether a value is the zero slog.Value (KindAny nil); `a.Equal(slog.Attr{})`
holds exactly when the key is empty and the value is this. -/
def AttrValue.isNilv : AttrValue → Bool
  | .nilv => true
  | _ => false

/-- Go `a.Value.String()` lowered to bytes: nil renders as `<nil>`, integers
in decimal as strconv.FormatInt does.  The group case is unreachable from
appendAttr (groups are intercepted first) and yields no bytes. -/
def AttrValue.stringBytes : AttrValue → List UInt8
  | .nilv => strBytes "<nil>"
  | .str s => strBytes s
  | .intv n => strBytes (toString n)
  | .group _ => []

/-- Modelled from the spec: the repository's `needsQuoting` helper is not
among the provided source files.  Per the spec, a value is quoted iff the
raw value contains whitespace, a control character, or the quote
character; this is that predicate on the value's bytes. -/
def isQuoteTrigger (b : UInt8) : Bool :=
  (b == 32 || b == 9 || b == 10 || b == 13)     -- whitespace
  || (b < 32 || b == 127)                        -- control characters
  || b == 34                                     -- the quote character

/-- Modelled from the spec: quoting needed iff some byte triggers it. -/
def needsQuoting (v : List UInt8) : Bool := v.any isQuoteTrigger

/-- Lower hex digit used in `\xHH` escapes. -/
def hexDigit (n : Nat) : UInt8 :=
  if n < 10 then UInt8.ofNat (48 + n) else UInt8.ofNat (87 + n)

/-- strconv.AppendQuote's escaping of one byte: standard string-quote
escaping of quotes, backslashes and control characters. -/
def quoteByte (b : UInt8) : List UInt8 :=
  if b == 34 then [92, 34]
  else if b == 92 then [92, 92]
  else if b == 10 then [92, 110]
  else if b == 13 then [92, 114]
  else if b == 9 then [92, 116]
  else if b < 32 || b == 127 then [92, 120, hexDigit (b.toNat / 16), hexDigit (b.toNat % 16)]
  else [b]

/-- strconv.AppendQuote's output: the value escaped and wrapped in quotes
(byte 34). -/
def goQuote (v : List UInt8) : List UInt8 :=
  34 :: v.foldr (fun b acc => quoteByte b ++ acc) [34]

/-- handler.go `Handler`.  The socket handle and destination address are
external resources and are not part of the embedded state; `level` models
the `slog.Leveler` field (`none` = nil, `some m` = a Leveler whose
`Level()` returns `m`).  The field the source calls `groupPrefix` is kept
under its source name; byte-typed because WithAttrs rebuilds it from the
prefix buffer. -/
structure Handler where
  level : Option Int
  preformattedAttrs : List UInt8
  groupPrefix : List UInt8
  groups : List String
  nOpenGroups : Nat
  timeFormat : String
  msgPrefix : String

/-- handler.go `HandlerOptions` (minus the socket path, which only selects
the external destination address). -/
structure HandlerOptions where
  Level : Option Int
  Prefix : String
  TimeFormat : String

/-- time.RFC3339Nano, the default TimeFormat. -/
def rfc3339Nano : String := "2006-01-02T15:04:05.999999999Z07:00"

/-- handler.go `NewHandler` (socket creation is external and elided; its
failure would return no Handler at all). -/
def NewHandler (opts : Option HandlerOptions) : Handler :=
  let h : Handler :=
    { level := none, preformattedAttrs := [], groupPrefix := [], groups := [],
      nOpenGroups := 0, timeFormat := rfc3339Nano, msgPrefix := "" }
  match opts with
  | none => h
  | some o =>
    { h with
      level := o.Level,
      timeFormat := if o.TimeFormat != "" then o.TimeFormat else h.timeFormat,
      msgPrefix := o.Prefix }

/-- handler.go `Handler.Enabled`. -/
def Handler.Enabled (h : Handler) (l : Int) : Bool :=
  let minLevel := match h.level with
    | none => LevelDebug
    | some m => m
  decide (l ≥ minLevel)

/-- handler.go `Handler.ExtendPrefix` (clone, then extend msgPrefix). -/
def Handler.ExtendPrefix (h : Handler) (s : String) : Handler :=
  { h with msgPrefix := h.msgPrefix ++ s }

/-- handler.go `Handler.WithGroup` (clone, then append the name — the source
has no empty-name check). -/
def Handler.WithGroup (h : Handler) (name : String) : Handler :=
  { h with groups := h.groups ++ [name] }

/-- handler.go `handleState` (minus `freeBuf`, which only manages buffer
pooling).  The field the source calls `prefix` is named `keyPre` here. -/
structure HandleState where
  h : Handler
  buf : List UInt8
  sep : String
  keyPre : List UInt8

/-- handleState.openGroup: append the name and the key component
separator '.' (byte 46) to the key prefix buffer. -/
def HandleState.openGroup (s : HandleState) (name : String) : HandleState :=
  { s with keyPre := s.keyPre ++ strBytes name ++ [46] }

/-- handleState.closeGroup: drop `len(name)+1` bytes from the key prefix
buffer and require a separator before the next fragment. -/
def HandleState.closeGroup (s : HandleState) (name : String) : HandleState :=
  { s with keyPre := s.keyPre.take (s.keyPre.length - ((strBytes name).length + 1)),
           sep := " " }

/-- handleState.openGroups: open every group not yet reflected in
preformattedAttrs. -/
def HandleState.openGroups (s : HandleState) : HandleState :=
  (s.h.groups.drop s.h.nOpenGroups).foldl (fun st n => st.openGroup n) s

/-- handleState.appendString: quoted via strconv.AppendQuote iff
needsQuoting, verbatim otherwise. -/
def HandleState.appendString (s : HandleState) (v : List UInt8) : HandleState :=
  if needsQuoting v then { s with buf := s.buf ++ goQuote v }
  else { s with buf := s.buf ++ v }

/-- handleState.appendKey: separator, then `<keyPre><key>` (quoted as one
string if needed), then '=' (byte 61); the next separator is a space. -/
def HandleState.appendKey (s0 : HandleState) (key : List UInt8) : HandleState :=
  let s1 := { s0 with buf := s0.buf ++ strBytes s0.sep }
  let s2 := if s1.keyPre.length > 0 then s1.appendString (s1.keyPre ++ key)
            else s1.appendString key
  { s2 with buf := s2.buf ++ [61], sep := " " }

mutual

/-- handleState.appendAttr on an attribute's key and value.  Resolve is the
identity on the represented kinds and the Time/Source special cases are
subsumed by `str` (see `AttrValue`).  A group is rendered only when
non-empty, opening/closing a scope only when its key is non-empty;
otherwise the empty-Attr check (`a.Equal(slog.Attr{})`, i.e. empty key and
zero value) elides, else key and value are emitted. -/
def HandleState.appendAttrVal (s : HandleState) (key : String) (v : AttrValue) :
    HandleState :=
  match v with
  | AttrValue.group attrs =>
    if attrs.length > 0 then
      let s1 := if key != "" then s.openGroup key else s
      let s2 := s1.appendAttrList attrs
      if key != "" then s2.closeGroup key else s2
    else s
  | v =>
    if key == "" && v.isNilv then s
    else (s.appendKey (strBytes key)).appendString v.stringBytes
termination_by structural v

/-- The `for _, aa := range attrs` loop inside appendAttr (and the
`r.Attrs` iteration of Handle), threading the state left to right. -/
def HandleState.appendAttrList (s : HandleState) (as : List Attr) : HandleState :=
  match as with
  | [] => s
  | (k, v) :: rest => (s.appendAttrVal k v).appendAttrList rest
termination_by structural as

end

/-- handleState.appendAttr, taking the attribute as one pair. -/
def HandleState.appendAttr (s : HandleState) (a : Attr) : HandleState :=
  s.appendAttrVal a.1 a.2

/-- handler.go `Handler.clone` and `Handler.WithAttrs`: clone, render the
attributes into the copy of preformattedAttrs (separator rule first, then
the not-yet-reflected groups), remember the new key prefix and that all
open groups are now reflected. -/
def Handler.WithAttrs (h : Handler) (as : List Attr) : Handler :=
  let st0 : HandleState :=
    { h := h, buf := h.preformattedAttrs,
      sep := if h.preformattedAttrs.length > 0 then " " else "",
      keyPre := h.groupPrefix }
  let st1 := st0.openGroups
  let st2 := st1.appendAttrList as
  { h with preformattedAttrs := st2.buf, groupPrefix := st2.keyPre,
           nOpenGroups := h.groups.length }

/-- slog.Record as this handler consumes it: `time = none` models a zero
`r.Time` and `some u` a time whose `Unix()` is `u`; the program counter is
elided — Handle's caller-location suffix derived from it is passed to the
embedded Handle explicitly. -/
structure Record where
  time : Option Int
  level : Int
  message : String
  attrs : List Attr

/-- handleState.appendNonBuiltIns: separator plus preformatted attributes
when present, then the group prefix, the remaining open groups, and the
record's own attributes. -/
def HandleState.appendNonBuiltIns (s : HandleState) (r : Record) : HandleState :=
  let s1 := if s.h.preformattedAttrs.length > 0 then
      { s with buf := s.buf ++ strBytes s.sep ++ s.h.preformattedAttrs, sep := " " }
    else s
  let s2 := { s1 with keyPre := s1.keyPre ++ s1.h.groupPrefix }
  let s3 := s2.openGroups
  s3.appendAttrList r.attrs

/-- binary.LittleEndian.PutUint64's bytes for `uint64(n)` (low byte first;
UInt8.ofNat truncates mod 256 exactly as the conversion does). -/
def encodeLE64 (n : Nat) : List UInt8 :=
  [UInt8.ofNat n, UInt8.ofNat (n >>> 8), UInt8.ofNat (n >>> 16), UInt8.ofNat (n >>> 24),
   UInt8.ofNat (n >>> 32), UInt8.ofNat (n >>> 40), UInt8.ofNat (n >>> 48), UInt8.ofNat (n >>> 56)]

/-- Reading a little-endian unsigned integer back from bytes (the decoder
the protocol's receiver applies to the 8-byte length slot). -/
def decodeLE64 (l : List UInt8) : Nat :=
  l.foldr (fun b acc => acc * 256 + b.toNat) 0

/-- binary.LittleEndian.PutUint64(b[off:], n): overwrite the 8 bytes at
`off` in place. -/
def patchLE64 (b : List UInt8) (off : Nat) (n : Nat) : List UInt8 :=
  b.take off ++ encodeLE64 n ++ b.drop (off + 8)

/-- handler.go `Handler.Handle`, producing the datagram bytes (lines
167-207; the socket write and oversize fallback of lines 208-211 are the
transport, modelled separately).  `sfx` is the `\nCODE_FILE=...` suffix
the call-site cache yields for the record's program counter. -/
def Handler.handleBytes (h : Handler) (r : Record) (sfx : String) : List UInt8 :=
  let pfx := priorityPrefixOf r.level
  let buf0 := strBytes pfx
  let messageOffset := buf0.length
  let st0 : HandleState :=
    { h := h, buf := buf0 ++ strBytes h.msgPrefix ++ strBytes r.message,
      sep := ": ", keyPre := [] }
  let st1 := st0.appendNonBuiltIns r
  let messageLen := st1.buf.length - messageOffset
  let buf2 := st1.buf ++ strBytes sfx
  let buf3 := match r.time with
    | none => buf2
    | some u => buf2 ++ strBytes "SYSLOG_TIMESTAMP=" ++ strBytes (toString u) ++ [10]
  patchLE64 buf3 (messageOffset - 8) messageLen

/-- The message field's payload for a handler and record: message prefix,
message text, then everything appendNonBuiltIns emits (exactly the bytes
Handle measures for the length slot, as the decomposition theorems show). -/
def messagePayload (h : Handler) (r : Record) : List UInt8 :=
  (HandleState.appendNonBuiltIns
    { h := h, buf := strBytes h.msgPrefix ++ strBytes r.message,
      sep := ": ", keyPre := [] } r).buf

/-- The bytes of the entry before the 8-byte length slot:
`PRIORITY=<n>\nMESSAGE\n` (19 bytes of the selected prefix). -/
def entryHead (l : Int) : List UInt8 :=
  (strBytes (priorityPrefixOf l)).take 19

/-- The `SYSLOG_TIMESTAMP=<unix-seconds>\n` bytes Handle appends for a
non-zero record time, nothing for a zero time (handler.go lines 199-203). -/
def timestampBytes (r : Record) : List UInt8 :=
  match r.time with
  | none => []
  | some u => strBytes "SYSLOG_TIMESTAMP=" ++ strBytes (toString u) ++ [10]

/-- The identity of an error value crossing the transport: the two
size-related errno conditions the fallback tests with `errors.Is`, or any
other error (tagged by an arbitrary code). -/
inductive SysError where
  | EMSGSIZE
  | ENOBUFS
  | other (code : Nat)
deriving DecidableEq

/-- The outcomes of the three side-effecting steps of the oversize
fallback, supplied by the environment: `none` = the step would succeed,
`some e` = the step would fail with error `e`. -/
structure FallbackIO where
  createFile : Option SysError
  writeFile : Option SysError
  sendFd : Option SysError

/-- large_yes.go `Handler.sendViaFileIfTooLarge` (platforms with
descriptor passing): pass every non-size error through; otherwise create
the anonymous file, write the entry, and send the descriptor, returning
the first failure unchanged, or success. -/
def sendViaFileIfTooLargeYes (err : SysError) (io_ : FallbackIO) : Option SysError :=
  if !(err == SysError.EMSGSIZE || err == SysError.ENOBUFS) then some err
  else
    match io_.createFile with
    | some e => some e
    | none =>
      match io_.writeFile with
      | some e => some e
      | none =>
        match io_.sendFd with
        | some e => some e
        | none => none

/-- large_no.go `Handler.sendViaFileIfTooLarge` (platforms without
descriptor passing): return the original error unchanged. -/
def sendViaFileIfTooLargeNo (err : SysError) : SysError :=
  err

/-- large_yes.go / large_no.go `LargeMessageSupport`. -/
def LargeMessageSupportYes : Bool := true
/-- large_no.go value of the capability flag. -/
def LargeMessageSupportNo : Bool := false

/-- The Handlers reachable from NewHandler by the derivation operations. -/
inductive Reachable : Handler → Prop where
  | new (opts : Option HandlerOptions) : Reachable (NewHandler opts)
  | withAttrs {h : Handler} (as : List Attr) : Reachable h → Reachable (h.WithAttrs as)
  | withGroup {h : Handler} (name : String) : Reachable h → Reachable (h.WithGroup name)
  | extendPre {h : Handler} (s : String) : Reachable h → Reachable (h.ExtendPrefix s)

example : strBytes "ab\x00" = [97, 98, 0] := by decide
example : priorityNum 0 = 6 := by decide
example : priorityNum 100 = 1 := by decide
example :
    messagePayload (NewHandler none)
      { time := none, level := 0, message := "m",
        attrs := [("a", .str "1"), ("b", .str "x y")] }
      = strBytes "m: a=1 b=\"x y\"" := by decide

/-! ### Helper lemmas -/

/-- Decoding the little-endian slot recovers the encoded count mod 2^64. -/
theorem decodeLE64_encodeLE64 (n : Nat) : decodeLE64 (encodeLE64 n) = n % 2 ^ 64 := by
  have h : ∀ m : Nat, (UInt8.ofNat m).toNat = m % 256 := fun _ => rfl
  simp [decodeLE64, encodeLE64, h, Nat.shiftRight_eq_div_pow]
  omega

/-- The prefix Handle selects is always one of the seven constants that can
actually be chosen (prefixEmerg is not among them). -/
theorem priorityPrefixOf_cases (l : Int) :
    priorityPrefixOf l = prefixDebug ∨ priorityPrefixOf l = prefixInfo ∨
    priorityPrefixOf l = prefixNotice ∨ priorityPrefixOf l = prefixWarning ∨
    priorityPrefixOf l = prefixErr ∨ priorityPrefixOf l = prefixCrit ∨
    priorityPrefixOf l = prefixAlert := by
  simp only [priorityPrefixOf, LevelDebug]
  split_ifs with h1 h2
  · exact Or.inl rfl
  · have hlen : (priorityPrefixes.length : Int) = 17 := by decide
    rw [hlen] at h2
    have hn : (l - -4).toNat < 17 := by omega
    set n := (l - -4).toNat with hndef
    interval_cases n <;> simp [priorityPrefixes]
  · exact Or.inr (Or.inr (Or.inr (Or.inr (Or.inr (Or.inr rfl)))))

/-- Every selectable prefix is 27 bytes: the 19-byte head then the 8
reserved zero bytes. -/
theorem prefixOf_split (l : Int) :
    strBytes (priorityPrefixOf l) = entryHead l ++ List.replicate 8 0
    ∧ (strBytes (priorityPrefixOf l)).length = 27 := by
  have h := priorityPrefixOf_cases l
  unfold entryHead
  rcases h with h | h | h | h | h | h | h <;> rw [h] <;> exact ⟨by decide, by decide⟩

/-- appendString only appends to the output buffer: prepended bytes pass
through unchanged, and no other state component depends on them. -/
theorem appendString_frame (s : HandleState) (v : List UInt8) (extra : List UInt8) :
    HandleState.appendString { s with buf := extra ++ s.buf } v
      = { s.appendString v with buf := extra ++ (s.appendString v).buf } := by
  simp only [HandleState.appendString]
  split_ifs <;> simp

/-- appendKey only appends to the output buffer. -/
theorem appendKey_frame (s : HandleState) (key : List UInt8) (extra : List UInt8) :
    HandleState.appendKey { s with buf := extra ++ s.buf } key
      = { s.appendKey key with buf := extra ++ (s.appendKey key).buf } := by
  simp only [HandleState.appendKey, HandleState.appendString]
  split_ifs <;> simp [List.append_assoc]

/-- openGroup only touches the key prefix. -/
theorem openGroup_frame (s : HandleState) (name : String) (extra : List UInt8) :
    HandleState.openGroup { s with buf := extra ++ s.buf } name
      = { s.openGroup name with buf := extra ++ (s.openGroup name).buf } := by
  simp [HandleState.openGroup]

/-- closeGroup only touches the key prefix and the separator. -/
theorem closeGroup_frame (s : HandleState) (name : String) (extra : List UInt8) :
    HandleState.closeGroup { s with buf := extra ++ s.buf } name
      = { s.closeGroup name with buf := extra ++ (s.closeGroup name).buf } := by
  simp [HandleState.closeGroup]

/-- The attribute renderer only appends to the output buffer: bytes already
in the buffer pass through unchanged, and what is appended, along with the
resulting separator and key prefix, does not depend on them.  Joint
statement for appendAttr on a key/value and on an attribute list. -/
theorem appendAttr_frame_joint :
    (∀ (s : HandleState) (key : String) (v : AttrValue) (extra : List UInt8),
      HandleState.appendAttrVal { s with buf := extra ++ s.buf } key v
        = { s.appendAttrVal key v with buf := extra ++ (s.appendAttrVal key v).buf })
    ∧ (∀ (s : HandleState) (as : List Attr) (extra : List UInt8),
      HandleState.appendAttrList { s with buf := extra ++ s.buf } as
        = { s.appendAttrList as with buf := extra ++ (s.appendAttrList as).buf }) := by
  apply HandleState.appendAttrVal.mutual_induct
    (fun s key v => ∀ extra : List UInt8,
      HandleState.appendAttrVal { s with buf := extra ++ s.buf } key v
        = { s.appendAttrVal key v with buf := extra ++ (s.appendAttrVal key v).buf })
    (fun s as => ∀ extra : List UInt8,
      HandleState.appendAttrList { s with buf := extra ++ s.buf } as
        = { s.appendAttrList as with buf := extra ++ (s.appendAttrList as).buf })
  · intro s key attrs hlen s1 hk ih extra
    unfold s1 at ih
    rw [if_pos hk] at ih
    simp only [HandleState.appendAttrVal, if_pos hlen, if_pos hk]
    rw [openGroup_frame, ih, closeGroup_frame]
  · intro s key attrs hlen s1 hk ih extra
    unfold s1 at ih
    rw [if_neg hk] at ih
    simp only [HandleState.appendAttrVal, if_pos hlen, if_neg hk]
    exact ih extra
  · intro s key attrs hlen extra
    simp only [HandleState.appendAttrVal, if_neg hlen]
  · intro s key v hng hnil extra
    cases v with
    | nilv => simp only [HandleState.appendAttrVal, if_pos hnil]
    | str t => simp [AttrValue.isNilv] at hnil
    | intv n => simp [AttrValue.isNilv] at hnil
    | group as => exact absurd rfl (hng _)
  · intro s key v hng hnil extra
    cases v with
    | nilv =>
      simp only [HandleState.appendAttrVal, if_neg hnil]
      rw [appendKey_frame, appendString_frame]
    | str t =>
      simp only [HandleState.appendAttrVal, if_neg hnil]
      rw [appendKey_frame, appendString_frame]
    | intv n =>
      simp only [HandleState.appendAttrVal, if_neg hnil]
      rw [appendKey_frame, appendString_frame]
    | group as => exact absurd rfl (hng _)
  · intro s extra
    simp only [HandleState.appendAttrList]
  · intro s k v rest ih1 ih2 extra
    simp only [HandleState.appendAttrList]
    rw [ih1, ih2]

/-- The appendAttrVal component of the frame property. -/
theorem appendAttrVal_frame (s : HandleState) (key : String) (v : AttrValue)
    (extra : List UInt8) :
    HandleState.appendAttrVal { s with buf := extra ++ s.buf } key v
      = { s.appendAttrVal key v with buf := extra ++ (s.appendAttrVal key v).buf } :=
  appendAttr_frame_joint.1 s key v extra

/-- The appendAttrList component of the frame property. -/
theorem appendAttrList_frame (s : HandleState) (as : List Attr) (extra : List UInt8) :
    HandleState.appendAttrList { s with buf := extra ++ s.buf } as
      = { s.appendAttrList as with buf := extra ++ (s.appendAttrList as).buf } :=
  appendAttr_frame_joint.2 s as extra

/-- openGroups is a fold of openGroup and only touches the key prefix:
frame form over an opaque state. -/
theorem foldl_openGroup_frame (names : List String) (s : HandleState) (extra : List UInt8) :
    names.foldl (fun st n => st.openGroup n) { s with buf := extra ++ s.buf }
      = { names.foldl (fun st n => st.openGroup n) s
          with buf := extra ++ (names.foldl (fun st n => st.openGroup n) s).buf } := by
  induction names generalizing s with
  | nil => simp
  | cons n rest ih =>
    simp only [List.foldl_cons]
    rw [openGroup_frame, ih]

/-- openGroups frame property. -/
theorem openGroups_frame (s : HandleState) (extra : List UInt8) :
    HandleState.openGroups { s with buf := extra ++ s.buf }
      = { s.openGroups with buf := extra ++ s.openGroups.buf } :=
  foldl_openGroup_frame (s.h.groups.drop s.h.nOpenGroups) s extra

/-- openGroups frame property, stated on an explicit state. -/
theorem openGroups_frame' (hh : Handler) (b : List UInt8) (ss : String)
    (kk : List UInt8) (extra : List UInt8) :
    HandleState.openGroups ⟨hh, extra ++ b, ss, kk⟩
      = { HandleState.openGroups ⟨hh, b, ss, kk⟩
          with buf := extra ++ (HandleState.openGroups ⟨hh, b, ss, kk⟩).buf } :=
  openGroups_frame ⟨hh, b, ss, kk⟩ extra

/-- appendAttrList frame property, stated on an explicit state. -/
theorem appendAttrList_frame' (hh : Handler) (b : List UInt8) (ss : String)
    (kk : List UInt8) (as : List Attr) (extra : List UInt8) :
    HandleState.appendAttrList ⟨hh, extra ++ b, ss, kk⟩ as
      = { HandleState.appendAttrList ⟨hh, b, ss, kk⟩ as
          with buf := extra ++ (HandleState.appendAttrList ⟨hh, b, ss, kk⟩ as).buf } :=
  appendAttrList_frame ⟨hh, b, ss, kk⟩ as extra

/-- appendNonBuiltIns frame property, stated on an explicit state. -/
theorem appendNonBuiltIns_frame (hh : Handler) (b : List UInt8) (ss : String)
    (kk : List UInt8) (r : Record) (extra : List UInt8) :
    HandleState.appendNonBuiltIns ⟨hh, extra ++ b, ss, kk⟩ r
      = { HandleState.appendNonBuiltIns ⟨hh, b, ss, kk⟩ r
          with buf := extra ++ (HandleState.appendNonBuiltIns ⟨hh, b, ss, kk⟩ r).buf } := by
  simp only [HandleState.appendNonBuiltIns]
  split_ifs with h
  · rw [show extra ++ b ++ strBytes ss ++ hh.preformattedAttrs
        = extra ++ (b ++ strBytes ss ++ hh.preformattedAttrs) from by
      simp [List.append_assoc]]
    rw [openGroups_frame', appendAttrList_frame]
  · rw [openGroups_frame', appendAttrList_frame]

/-- Patching the 8-byte slot that sits right after a 19-byte head replaces
exactly the reserved bytes. -/
theorem patch_at (head pay : List UInt8) (n : Nat) (h19 : head.length = 19) :
    patchLE64 (head ++ List.replicate 8 0 ++ pay) 19 n
      = head ++ encodeLE64 n ++ pay := by
  simp only [patchLE64]
  have ht : (head ++ List.replicate 8 0 ++ pay).take 19 = head := by
    rw [List.append_assoc, List.take_append_of_le_length (by omega)]
    rw [← h19, List.take_length]
  have hd : (head ++ List.replicate 8 0 ++ pay).drop (19 + 8) = pay := by
    rw [List.drop_left' (by simp [h19])]
  rw [ht, hd]

/-- The entry Handle builds decomposes as: 19-byte head, the 8-byte
little-endian encoding of the message payload's byte length, the message
payload itself, then the caller-location suffix and the timestamp field.
This is the reserve/patch bookkeeping of Handle made explicit. -/
theorem handleBytes_decomp (h : Handler) (r : Record) (sfx : String) :
    h.handleBytes r sfx
      = entryHead r.level ++ encodeLE64 (messagePayload h r).length
        ++ (messagePayload h r ++ (strBytes sfx ++ timestampBytes r)) := by
  obtain ⟨hsplit, hlen27⟩ := prefixOf_split r.level
  have hlen19 : (entryHead r.level).length = 19 := by
    have h1 := congrArg List.length hsplit
    simp only [List.length_append, List.length_replicate] at h1
    omega
  obtain ⟨t, lv, msg, ats⟩ := r
  simp only [Handler.handleBytes, messagePayload, timestampBytes]
  rw [show strBytes (priorityPrefixOf lv) ++ strBytes h.msgPrefix ++ strBytes msg
      = strBytes (priorityPrefixOf lv) ++ (strBytes h.msgPrefix ++ strBytes msg) from by
    simp [List.append_assoc]]
  rw [appendNonBuiltIns_frame]
  simp only [List.length_append]
  rw [hlen27] at *
  simp only [Nat.add_sub_cancel_left]
  dsimp only at hsplit hlen19
  cases t with
  | none =>
    dsimp only
    generalize ((⟨h, strBytes h.msgPrefix ++ strBytes msg, ": ", []⟩ : HandleState).appendNonBuiltIns
        { time := none, level := lv, message := msg, attrs := ats }).buf = PB
    rw [show (27 : Nat) - 8 = 19 from rfl, hsplit]
    rw [show entryHead lv ++ List.replicate 8 0 ++ PB ++ strBytes sfx
        = entryHead lv ++ List.replicate 8 0 ++ (PB ++ strBytes sfx) from by
      simp [List.append_assoc]]
    rw [patch_at _ _ _ hlen19]
    simp [List.append_assoc]
  | some u =>
    dsimp only
    generalize ((⟨h, strBytes h.msgPrefix ++ strBytes msg, ": ", []⟩ : HandleState).appendNonBuiltIns
        { time := some u, level := lv, message := msg, attrs := ats }).buf = PB
    rw [show (27 : Nat) - 8 = 19 from rfl, hsplit]
    rw [show entryHead lv ++ List.replicate 8 0 ++ PB ++ strBytes sfx
          ++ strBytes "SYSLOG_TIMESTAMP=" ++ strBytes (toString u) ++ [10]
        = entryHead lv ++ List.replicate 8 0
          ++ (PB ++ (strBytes sfx ++ (strBytes "SYSLOG_TIMESTAMP="
              ++ strBytes (toString u) ++ [10]))) from by
      simp [List.append_assoc]]
    rw [patch_at _ _ _ hlen19]

/-- Closed-form characterization of the priority the table yields at every
level. -/
theorem priorityNum_eq (l : Int) :
    priorityNum l =
      if l ≤ -4 then 7 else if l ≤ 0 then 6 else if l ≤ 3 then 5
      else if l ≤ 4 then 4 else if l ≤ 8 then 3 else if l ≤ 12 then 2 else 1 := by
  by_cases hlo : l < -4
  · have h1 : priorityNum l = 7 := by
      have hc : l - LevelDebug < 0 := by simp only [LevelDebug]; omega
      simp only [priorityNum, priorityPrefixOf, if_pos hc]
      decide
    rw [h1, if_pos (by omega : l ≤ -4)]
  · by_cases hhi : 12 < l
    · have h1 : priorityNum l = 1 := by
        have hc1 : ¬(l - LevelDebug < 0) := by simp only [LevelDebug]; omega
        have hc2 : ¬(l - LevelDebug < (priorityPrefixes.length : Int)) := by
          have : (priorityPrefixes.length : Int) = 17 := by decide
          rw [this]
          simp only [LevelDebug]
          omega
        simp only [priorityNum, priorityPrefixOf, if_neg hc1, if_neg hc2]
        decide
      rw [h1]
      rw [if_neg (by omega), if_neg (by omega), if_neg (by omega),
          if_neg (by omega), if_neg (by omega), if_neg (by omega)]
    · have h4 : -4 ≤ l := by omega
      have h12 : l ≤ 12 := by omega
      interval_cases l <;> decide

/-! ### Claim theorems -/

/-- C2, counterexample: the claim says levels above the highest recognized
tier clamp to priority 0, but at level 100 (above every named tier) Handle
selects prefixAlert, so the emitted priority is 1, not 0. -/
theorem spec_c2_counterexample :
    priorityPrefixOf 100 = prefixAlert ∧ priorityNum 100 = 1 ∧ priorityNum 100 ≠ 0 :=
  ⟨by decide, by decide, by decide⟩

/-- C2 (amended): the mapping clamps to priority 7 below the lowest
recognized tier and to priority 1 — not 0 — above the highest; priority 0
is never derived for any level. -/
theorem spec_c2_clamping :
    (∀ l : Int, l < LevelDebug → priorityNum l = 7)
    ∧ (∀ l : Int, LevelCrit < l → priorityNum l = 1)
    ∧ (∀ l : Int, priorityNum l ≠ 0) := by
  refine ⟨fun l hl => ?_, fun l hl => ?_, fun l => ?_⟩
  · rw [priorityNum_eq, if_pos (by simp only [LevelDebug] at hl; omega)]
  · rw [priorityNum_eq]
    simp only [LevelCrit] at hl
    rw [if_neg (by omega), if_neg (by omega), if_neg (by omega),
        if_neg (by omega), if_neg (by omega), if_neg (by omega)]
  · rw [priorityNum_eq]
    split_ifs <;> omega

/-- C3: the derived priority is monotonically non-increasing in the level,
and on the supported range it matches the fixed table (Debug tier 7, Info
tier and nearby offsets 6, Notice tier 5, Warning 4, Error tier and nearby
offsets 3, Critical tier 2). -/
theorem spec_c3_priority_monotone_table :
    (∀ l1 l2 : Int, l1 ≤ l2 → priorityNum l2 ≤ priorityNum l1)
    ∧ priorityNum LevelDebug = 7
    ∧ priorityNum LevelInfo = 6 ∧ priorityNum (LevelInfo - 1) = 6
    ∧ priorityNum (LevelDebug + 1) = 6
    ∧ priorityNum LevelNotice = 5 ∧ priorityNum (LevelInfo + 1) = 5
    ∧ priorityNum (LevelWarn - 1) = 5
    ∧ priorityNum LevelWarn = 4
    ∧ priorityNum LevelError = 3 ∧ priorityNum (LevelWarn + 1) = 3
    ∧ priorityNum LevelCrit = 2 ∧ priorityNum (LevelError + 1) = 2 := by
  refine ⟨fun l1 l2 hle => ?_, by decide, by decide, by decide, by decide, by decide,
    by decide, by decide, by decide, by decide, by decide, by decide, by decide⟩
  rw [priorityNum_eq, priorityNum_eq]
  split_ifs <;> omega

/-- C5: a rendered value is emitted quoted exactly when some byte of the
raw value is whitespace, a control character, or the quote character, and
verbatim otherwise.  (needsQuoting is modelled from the spec; its source
file is not provided.) -/
theorem spec_c5_value_quoting :
    ∀ (st : HandleState) (v : List UInt8),
      ((st.appendString v).buf = st.buf ++ goQuote v ∧ needsQuoting v = true
        ∧ ∃ b ∈ v, isQuoteTrigger b = true)
      ∨ ((st.appendString v).buf = st.buf ++ v ∧ needsQuoting v = false
        ∧ ∀ b ∈ v, isQuoteTrigger b = false) := by
  intro st v
  by_cases hq : needsQuoting v
  · exact Or.inl ⟨by simp [HandleState.appendString, hq], hq,
      by simpa [needsQuoting, List.any_eq_true] using hq⟩
  · refine Or.inr ⟨by simp [HandleState.appendString, hq], by simpa using hq, ?_⟩
    intro b hb
    by_contra hc
    apply hq
    simp only [needsQuoting, List.any_eq_true]
    exact ⟨b, hb, by simpa using hc⟩

/-- C7: the oversize fallback runs iff the send failed with EMSGSIZE or
ENOBUFS; any other send error, and any error from anonymous-file creation
or from writing the entry, is returned to the caller unchanged (with the
later steps never consulted); on platforms without descriptor passing the
fallback returns the original error unchanged. -/
theorem spec_c7_fallback_errors :
    (∀ (e : SysError) (io_ : FallbackIO), e ≠ SysError.EMSGSIZE → e ≠ SysError.ENOBUFS →
      sendViaFileIfTooLargeYes e io_ = some e)
    ∧ (∀ (e err : SysError) (w f : Option SysError),
        (e = SysError.EMSGSIZE ∨ e = SysError.ENOBUFS) →
        sendViaFileIfTooLargeYes e ⟨some err, w, f⟩ = some err)
    ∧ (∀ (e err : SysError) (f : Option SysError),
        (e = SysError.EMSGSIZE ∨ e = SysError.ENOBUFS) →
        sendViaFileIfTooLargeYes e ⟨none, some err, f⟩ = some err)
    ∧ (∀ (e err : SysError),
        (e = SysError.EMSGSIZE ∨ e = SysError.ENOBUFS) →
        sendViaFileIfTooLargeYes e ⟨none, none, some err⟩ = some err)
    ∧ (∀ e : SysError,
        (e = SysError.EMSGSIZE ∨ e = SysError.ENOBUFS) →
        sendViaFileIfTooLargeYes e ⟨none, none, none⟩ = none)
    ∧ (∀ e : SysError, sendViaFileIfTooLargeNo e = e) := by
  refine ⟨fun e io_ h1 h2 => ?_, fun e err w f he => ?_, fun e err f he => ?_,
    fun e err he => ?_, fun e he => ?_, fun e => rfl⟩
  · simp [sendViaFileIfTooLargeYes, h1, h2]
  · rcases he with he | he <;> subst he <;> rfl
  · rcases he with he | he <;> subst he <;> rfl
  · rcases he with he | he <;> subst he <;> rfl
  · rcases he with he | he <;> subst he <;> rfl

/-- C8: for every Handler reachable from NewHandler by WithAttrs,
WithGroup, and ExtendPrefix, the count of groups already reflected in the
pre-rendered buffer never exceeds the number of open groups, and each
operation individually preserves that invariant. -/
theorem spec_c8_open_groups_invariant :
    (∀ h : Handler, Reachable h → h.nOpenGroups ≤ h.groups.length)
    ∧ (∀ opts, (NewHandler opts).nOpenGroups ≤ (NewHandler opts).groups.length)
    ∧ (∀ (h : Handler) (as : List Attr), h.nOpenGroups ≤ h.groups.length →
        (h.WithAttrs as).nOpenGroups ≤ (h.WithAttrs as).groups.length)
    ∧ (∀ (h : Handler) (name : String), h.nOpenGroups ≤ h.groups.length →
        (h.WithGroup name).nOpenGroups ≤ (h.WithGroup name).groups.length)
    ∧ (∀ (h : Handler) (s : String), h.nOpenGroups ≤ h.groups.length →
        (h.ExtendPrefix s).nOpenGroups ≤ (h.ExtendPrefix s).groups.length) := by
  have hnew : ∀ opts, (NewHandler opts).nOpenGroups ≤ (NewHandler opts).groups.length := by
    intro opts
    cases opts <;> simp [NewHandler]
  have hwa : ∀ (h : Handler) (as : List Attr),
      (h.WithAttrs as).nOpenGroups ≤ (h.WithAttrs as).groups.length := by
    intro h as
    simp [Handler.WithAttrs]
  have hwg : ∀ (h : Handler) (name : String), h.nOpenGroups ≤ h.groups.length →
      (h.WithGroup name).nOpenGroups ≤ (h.WithGroup name).groups.length := by
    intro h name hh
    simp only [Handler.WithGroup, List.length_append, List.length_cons, List.length_nil]
    omega
  refine ⟨fun h hr => ?_, hnew, fun h as _ => hwa h as, hwg,
    fun h s hh => hh⟩
  induction hr with
  | new opts => exact hnew opts
  | withAttrs as hr ih => exact hwa _ as
  | withGroup name hr ih => exact hwg _ name ih
  | extendPre s hr ih => exact ih

/-- C10: WithGroup with an empty name is not a no-op — the empty name is
appended to the open-group list, and opening that group later prefixes
subsequent keys with a lone '.' separator. -/
theorem spec_c10_empty_group_name :
    (∀ h : Handler, (h.WithGroup "").groups = h.groups ++ [""])
    ∧ (∀ h : Handler, (h.WithGroup "").groups ≠ h.groups)
    ∧ (∀ s : HandleState, s.openGroup "" = { s with keyPre := s.keyPre ++ [46] })
    ∧ messagePayload ((NewHandler none).WithGroup "")
        { time := none, level := 0, message := "m", attrs := [("a", AttrValue.str "1")] }
        = strBytes "m: .a=1" := by
  refine ⟨fun h => rfl, fun h hne => ?_, fun s => ?_, by decide⟩
  · have := congrArg List.length hne
    simp [Handler.WithGroup] at this
  · simp [HandleState.openGroup, strBytes]

/-- The head before the length slot is always 19 bytes. -/
theorem entryHead_length (l : Int) : (entryHead l).length = 19 := by
  obtain ⟨hsplit, hlen27⟩ := prefixOf_split l
  have h1 := congrArg List.length hsplit
  simp only [List.length_append, List.length_replicate] at h1
  omega

/-- C1: every encoded entry carries the MESSAGE field in length-prefixed
form — the 8-byte little-endian slot reserved before the payload and
patched afterwards holds exactly the byte length of the payload that
follows (message prefix + message text + rendered attributes, after all
escaping); and the concrete record with message "m" and attributes
a="1", b="x y" yields the payload `m: a=1 b="x y"` of declared length 14. -/
theorem spec_c1_message_length_prefix :
    (∀ (h : Handler) (r : Record) (sfx : String),
      h.handleBytes r sfx
        = entryHead r.level ++ encodeLE64 (messagePayload h r).length
          ++ (messagePayload h r ++ (strBytes sfx ++ timestampBytes r)))
    ∧ (∀ (h : Handler) (r : Record) (sfx : String),
        (messagePayload h r).length < 2 ^ 64 →
        decodeLE64 (((h.handleBytes r sfx).drop 19).take 8) = (messagePayload h r).length)
    ∧ messagePayload (NewHandler none)
        { time := none, level := 0, message := "m",
          attrs := [("a", AttrValue.str "1"), ("b", AttrValue.str "x y")] }
        = strBytes "m: a=1 b=\"x y\""
    ∧ (strBytes "m: a=1 b=\"x y\"").length = 14 := by
  refine ⟨fun h r sfx => handleBytes_decomp h r sfx, fun h r sfx hlt => ?_, by decide, by decide⟩
  rw [handleBytes_decomp, List.append_assoc,
      List.drop_left' (entryHead_length r.level),
      List.take_left' (show (encodeLE64 (messagePayload h r).length).length = 8 from rfl),
      decodeLE64_encodeLE64]
  exact Nat.mod_eq_of_lt hlt

/-- C4: a non-empty group with a non-empty key renders its children inside
an opened scope whose prefix is the group key joined with '.'; a group
with no children renders nothing; a group with an empty key hoists its
children to the enclosing scope with no added prefix; an attribute with
empty key and zero value renders nothing.  Concretely, req:{id:"7"}
renders as `req.id=7` and "":{x:"1"} renders as `x=1`. -/
theorem spec_c4_group_attrs :
    (∀ (s : HandleState) (key : String) (as : List Attr),
      key ≠ "" → as.length > 0 →
      s.appendAttr (key, AttrValue.group as)
        = ((s.openGroup key).appendAttrList as).closeGroup key)
    ∧ (∀ (s : HandleState) (key : String), s.appendAttr (key, AttrValue.group []) = s)
    ∧ (∀ (s : HandleState) (as : List Attr),
        s.appendAttr ("", AttrValue.group as) = s.appendAttrList as)
    ∧ (∀ s : HandleState, s.appendAttr ("", AttrValue.nilv) = s)
    ∧ (HandleState.appendAttr ⟨NewHandler none, [], "", []⟩
        ("req", AttrValue.group [("id", AttrValue.str "7")])).buf = strBytes "req.id=7"
    ∧ (HandleState.appendAttr ⟨NewHandler none, [], "", []⟩
        ("", AttrValue.group [("x", AttrValue.str "1")])).buf = strBytes "x=1" := by
  refine ⟨fun s key as hk hlen => ?_, fun s key => ?_, fun s as => ?_, fun s => ?_,
    by decide, by decide⟩
  · have hk' : (key != "") = true := by simpa using hk
    simp only [HandleState.appendAttr, HandleState.appendAttrVal, if_pos hlen, if_pos hk']
  · simp [HandleState.appendAttr, HandleState.appendAttrVal]
  · cases as with
    | nil => simp [HandleState.appendAttr, HandleState.appendAttrVal, HandleState.appendAttrList]
    | cons a rest =>
      simp only [HandleState.appendAttr, HandleState.appendAttrVal,
        List.length_cons, if_pos (Nat.succ_pos _)]
      simp
  · simp [HandleState.appendAttr, HandleState.appendAttrVal, AttrValue.isNilv]

/-- C6: starting from a Context with nothing bound yet, binding {x:1} and
then {y:2} yields a Context whose pre-rendered buffer is `x=1 y=2` in that
order; the intermediate Context's buffer is `x=1` (derivation builds a new
value, the parent is an unchanged input); and handling a record with no
per-record attributes through the doubly-derived Context emits exactly the
message followed by `: x=1 y=2`. -/
theorem spec_c6_bind_attrs_twice :
    ∀ A : Handler, A.preformattedAttrs = [] → A.groups = [] → A.groupPrefix = [] →
      ((A.WithAttrs [("x", AttrValue.intv 1)]).WithAttrs
          [("y", AttrValue.intv 2)]).preformattedAttrs = strBytes "x=1 y=2"
      ∧ (A.WithAttrs [("x", AttrValue.intv 1)]).preformattedAttrs = strBytes "x=1"
      ∧ ∀ msg : String,
          messagePayload ((A.WithAttrs [("x", AttrValue.intv 1)]).WithAttrs
              [("y", AttrValue.intv 2)])
            { time := none, level := 0, message := msg, attrs := [] }
          = strBytes A.msgPrefix ++ strBytes msg ++ strBytes ": " ++ strBytes "x=1 y=2" := by
  intro A h1 h2 h3
  obtain ⟨lv, pf, gp, gs, no, tf, mp⟩ := A
  simp only at h1 h2 h3
  subst h1 h2 h3
  have hB : Handler.WithAttrs ⟨lv, [], [], [], no, tf, mp⟩ [("x", AttrValue.intv 1)]
      = ⟨lv, strBytes "x=1", [], [], 0, tf, mp⟩ := by
    simp only [Handler.WithAttrs, HandleState.openGroups]
    rw [List.drop_nil]
    rfl
  have hC : Handler.WithAttrs ⟨lv, strBytes "x=1", [], [], 0, tf, mp⟩
        [("y", AttrValue.intv 2)]
      = ⟨lv, strBytes "x=1 y=2", [], [], 0, tf, mp⟩ := by
    simp only [Handler.WithAttrs, HandleState.openGroups]
    rw [List.drop_nil]
    rfl
  refine ⟨by rw [hB, hC], by rw [hB], fun msg => by rw [hB, hC]; rfl⟩

/-- C6 witness: the derivation chain at the fresh default Context. -/
theorem spec_c6_witness :
    (((NewHandler none).WithAttrs [("x", AttrValue.intv 1)]).WithAttrs
        [("y", AttrValue.intv 2)]).preformattedAttrs = strBytes "x=1 y=2"
    ∧ ((NewHandler none).WithAttrs [("x", AttrValue.intv 1)]).preformattedAttrs
        = strBytes "x=1" := by
  have h := spec_c6_bind_attrs_twice (NewHandler none) rfl rfl rfl
  exact ⟨h.1, h.2.1⟩

/-- appendString never reads or writes the handler inside the state. -/
theorem appendString_hrepl (s : HandleState) (v : List UInt8) (H : Handler) :
    HandleState.appendString { s with h := H } v
      = { s.appendString v with h := H } := by
  simp only [HandleState.appendString]
  split_ifs <;> rfl

/-- appendKey never reads or writes the handler inside the state. -/
theorem appendKey_hrepl (s : HandleState) (key : List UInt8) (H : Handler) :
    HandleState.appendKey { s with h := H } key
      = { s.appendKey key with h := H } := by
  simp only [HandleState.appendKey, HandleState.appendString]
  split_ifs <;> rfl

/-- The attribute renderer never reads the handler carried in the state
(its group/quoting logic is handler-independent), so replacing it commutes
with rendering.  Joint statement for the two mutually recursive
functions. -/
theorem appendAttr_hrepl_joint :
    (∀ (s : HandleState) (key : String) (v : AttrValue) (H : Handler),
      HandleState.appendAttrVal { s with h := H } key v
        = { s.appendAttrVal key v with h := H })
    ∧ (∀ (s : HandleState) (as : List Attr) (H : Handler),
      HandleState.appendAttrList { s with h := H } as
        = { s.appendAttrList as with h := H }) := by
  apply HandleState.appendAttrVal.mutual_induct
    (fun s key v => ∀ H : Handler,
      HandleState.appendAttrVal { s with h := H } key v
        = { s.appendAttrVal key v with h := H })
    (fun s as => ∀ H : Handler,
      HandleState.appendAttrList { s with h := H } as
        = { s.appendAttrList as with h := H })
  · intro s key attrs hlen s1 hk ih H
    unfold s1 at ih
    rw [if_pos hk] at ih
    simp only [HandleState.appendAttrVal, if_pos hlen, if_pos hk]
    rw [show HandleState.openGroup { s with h := H } key
        = { s.openGroup key with h := H } from rfl]
    rw [ih]
    rfl
  · intro s key attrs hlen s1 hk ih H
    unfold s1 at ih
    rw [if_neg hk] at ih
    simp only [HandleState.appendAttrVal, if_pos hlen, if_neg hk]
    exact ih H
  · intro s key attrs hlen H
    simp only [HandleState.appendAttrVal, if_neg hlen]
  · intro s key v hng hnil H
    cases v with
    | nilv => simp only [HandleState.appendAttrVal, if_pos hnil]
    | str t => simp [AttrValue.isNilv] at hnil
    | intv n => simp [AttrValue.isNilv] at hnil
    | group as => exact absurd rfl (hng _)
  · intro s key v hng hnil H
    cases v with
    | nilv =>
      simp only [HandleState.appendAttrVal, if_neg hnil]
      rw [appendKey_hrepl, appendString_hrepl]
    | str t =>
      simp only [HandleState.appendAttrVal, if_neg hnil]
      rw [appendKey_hrepl, appendString_hrepl]
    | intv n =>
      simp only [HandleState.appendAttrVal, if_neg hnil]
      rw [appendKey_hrepl, appendString_hrepl]
    | group as => exact absurd rfl (hng _)
  · intro s H
    simp only [HandleState.appendAttrList]
  · intro s k v rest ih1 ih2 H
    simp only [HandleState.appendAttrList]
    rw [ih1, ih2]

/-- The openGroup fold never reads the handler. -/
theorem foldl_openGroup_hrepl (names : List String) (s : HandleState) (H : Handler) :
    names.foldl (fun st n => st.openGroup n) { s with h := H }
      = { names.foldl (fun st n => st.openGroup n) s with h := H } := by
  induction names generalizing s with
  | nil => rfl
  | cons n rest ih =>
    simp only [List.foldl_cons]
    rw [show HandleState.openGroup { s with h := H } n
        = { s.openGroup n with h := H } from rfl]
    exact ih (s.openGroup n)

/-- Replacing the state's handler with one that agrees on the group
bookkeeping commutes with openGroups. -/
theorem openGroups_hrepl (s : HandleState) (H : Handler)
    (hg : H.groups = s.h.groups) (hn : H.nOpenGroups = s.h.nOpenGroups) :
    HandleState.openGroups { s with h := H } = { s.openGroups with h := H } := by
  simp only [HandleState.openGroups]
  rw [hg, hn]
  exact foldl_openGroup_hrepl _ s H

/-- openGroups handler-replacement on an explicit state. -/
theorem openGroups_hrepl' (hh H : Handler) {b : List UInt8} {ss : String}
    {kk : List UInt8} (hg : H.groups = hh.groups) (hn : H.nOpenGroups = hh.nOpenGroups) :
    HandleState.openGroups ⟨H, b, ss, kk⟩
      = { HandleState.openGroups ⟨hh, b, ss, kk⟩ with h := H } :=
  openGroups_hrepl ⟨hh, b, ss, kk⟩ H hg hn

/-- Replacing the state's handler with one that agrees on everything the
render path reads (preformatted attributes, group prefix and group
bookkeeping) commutes with appendNonBuiltIns; in particular the level is
never consulted. -/
theorem appendNonBuiltIns_hrepl (hh : Handler) (b : List UInt8) (ss : String)
    (kk : List UInt8) (r : Record) (H : Handler)
    (hp : H.preformattedAttrs = hh.preformattedAttrs)
    (hgp : H.groupPrefix = hh.groupPrefix)
    (hg : H.groups = hh.groups) (hn : H.nOpenGroups = hh.nOpenGroups) :
    HandleState.appendNonBuiltIns ⟨H, b, ss, kk⟩ r
      = { HandleState.appendNonBuiltIns ⟨hh, b, ss, kk⟩ r with h := H } := by
  simp only [HandleState.appendNonBuiltIns]
  rw [hp]
  split_ifs with hc
  · dsimp only
    rw [hgp, openGroups_hrepl' hh H hg hn, appendAttr_hrepl_joint.2]
  · dsimp only
    rw [hgp, openGroups_hrepl' hh H hg hn, appendAttr_hrepl_joint.2]

/-- C9: Enabled is true exactly when the level is at or above the
configured floor, the floor defaulting to LevelDebug when none is
configured; Handle itself never consults the floor — its output is
unchanged under any replacement of the handler's level field — and every
record handed to Handle is encoded into a non-empty entry regardless of
its level. -/
theorem spec_c9_enabled_vs_handle :
    (∀ (h : Handler) (l : Int),
      h.Enabled l = true ↔ (match h.level with | none => LevelDebug | some m => m) ≤ l)
    ∧ (∀ l : Int, (NewHandler none).Enabled l = true ↔ LevelDebug ≤ l)
    ∧ (∀ (h : Handler) (r : Record) (sfx : String) (lvl : Option Int),
        Handler.handleBytes { h with level := lvl } r sfx = h.handleBytes r sfx)
    ∧ (∀ (h : Handler) (r : Record) (sfx : String), h.handleBytes r sfx ≠ []) := by
  have hmp : ∀ (h : Handler) (r : Record) (lvl : Option Int),
      messagePayload { h with level := lvl } r = messagePayload h r := by
    intro h r lvl
    simp only [messagePayload]
    rw [show HandleState.appendNonBuiltIns
        ⟨{ h with level := lvl }, strBytes h.msgPrefix ++ strBytes r.message, ": ", []⟩ r
        = { HandleState.appendNonBuiltIns
            ⟨h, strBytes h.msgPrefix ++ strBytes r.message, ": ", []⟩ r
            with h := { h with level := lvl } } from
      appendNonBuiltIns_hrepl h _ _ _ r { h with level := lvl } rfl rfl rfl rfl]
  refine ⟨fun h l => ?_, fun l => ?_, fun h r sfx lvl => ?_, fun h r sfx => ?_⟩
  · simp only [Handler.Enabled, decide_eq_true_eq, ge_iff_le]
  · simp [Handler.Enabled, NewHandler]
  · rw [handleBytes_decomp, handleBytes_decomp, hmp]
  · rw [handleBytes_decomp]
    intro hco
    have hl := congrArg List.length hco
    simp only [List.length_append, entryHead_length, List.length_nil] at hl
    omega
